import Mathlib

/-!
Verification of the Pi-hole DNS record extraction and merge pipeline
(`scripts/extract_pihole_dns.py`).

The embedding follows the source file:
* `parse_host_entry` models the Python function of the same name,
  including `str.strip()` and `str.split(maxsplit=1)` semantics;
* `processHosts` / `mergeCname` / `processSource` / `extract_records`
  model the per-source loop of `extract_records`, with the per-source
  `try/except` boundary, the first-writer-wins insertion into the two
  ordered mappings, and the logged duplicate warnings reified as a list
  of `Conflict` values;
* `buildOutput` / `mainRun` model the artifact construction and the
  exit-code logic of `main`;
* `retryLoop` / `sessionRequest` model the `urllib3.util.retry.Retry`
  strategy exactly as configured in `PiHoleAPI.__init__`
  (`total=3`, `status_forcelist=[429, 500, 502, 503, 504]`), together
  with `Response.raise_for_status`.

Strings are modelled as `List Char`; Python dicts (which preserve
insertion order) are modelled as ordered association lists.
-/

namespace PiholeDNS

/-- A Python string, modelled as its list of characters. -/
abbrev Str := List Char

/-- ASCII whitespace as recognised by Python `str.strip` / `str.split`
(space, tab, newline, carriage return, vertical tab, form feed). -/
def isPySpace (c : Char) : Bool :=
  c = ' ' || c = '\t' || c = '\n' || c = '\r' || c = '\x0b' || c = '\x0c'

/-- Python `str.strip()`: remove leading and trailing whitespace. -/
def pyStrip (l : Str) : Str :=
  ((l.dropWhile isPySpace).reverse.dropWhile isPySpace).reverse

/-- Trailing-whitespace removal (the second half of `pyStrip`). -/
def stripTail (l : Str) : Str :=
  (l.reverse.dropWhile isPySpace).reverse

/-- Python `str.split(maxsplit=1)` (no separator argument): skip leading
whitespace; if nothing remains, return `[]`; otherwise the first token is
the maximal non-whitespace run, the whitespace run after it is skipped,
and the remainder (if non-empty) is returned whole as the second part. -/
def pySplitFirst (l : Str) : List Str :=
  match l.dropWhile isPySpace with
  | [] => []
  | c :: t =>
    let tok := (c :: t).takeWhile (fun x => !isPySpace x)
    let rest := ((c :: t).dropWhile (fun x => !isPySpace x)).dropWhile isPySpace
    if rest = [] then [tok] else [tok, rest]

/-- `parse_host_entry` (lines 168-177): `entry.strip().split(maxsplit=1)`;
exactly two parts yield `(ip, hostname)`, anything else raises
`ValueError` (modelled as `none`). -/
def parse_host_entry (entry : Str) : Option (Str × Str) :=
  match pySplitFirst (pyStrip entry) with
  | [a, b] => some (a, b)
  | _ => none

/-- An ordered mapping (Python dict): association list in insertion order,
keys unique by construction of the merge. -/
abbrev RecMap := List (Str × Str)

/-- First-match key lookup, i.e. Python `key in dict` / `dict[key]`. -/
def lookupKey (m : RecMap) (k : Str) : Option Str :=
  match m with
  | [] => none
  | (k', v) :: rest => if k' = k then some v else lookupKey rest k

/-- One logged duplicate warning from `extract_records`
("Duplicate A/AAAA for ..." or "Duplicate CNAME for ..."): the source
being processed, the record kind, the key, the rejected new value and the
value kept. -/
structure Conflict where
  source : String
  kind : String
  key : Str
  rejected : Str
  kept : Str
deriving DecidableEq, Repr

/-- Result of the A/AAAA loop of one source: the (possibly grown) map,
the accumulated warnings, and whether the loop ran to completion
(`ok = false` means `parse_host_entry` raised `ValueError` and control
jumped to the per-source `except` block). -/
structure HostPass where
  map : RecMap
  conflicts : List Conflict
  ok : Bool
deriving DecidableEq, Repr

/-- The `for entry in hosts` loop of `extract_records` (lines 204-215):
parse each entry; on `ValueError` abandon the batch (the per-source
`except` catches it); otherwise insert first-writer-wins, logging a
duplicate warning when the hostname is already present. -/
def processHosts (src : String) (m : RecMap) (cf : List Conflict) :
    List Str → HostPass
  | [] => ⟨m, cf, true⟩
  | e :: rest =>
    match parse_host_entry e with
    | none => ⟨m, cf, false⟩
    | some (ip, hostname) =>
      match lookupKey m hostname with
      | none => processHosts src (m ++ [(hostname, ip)]) cf rest
      | some kept =>
        processHosts src m (cf ++ [⟨src, "A/AAAA", hostname, ip, kept⟩]) rest

/-- One raw CNAME record from the backend: `rec.get("domain")` and
`rec.get("target")` may each be absent. -/
structure CnameRec where
  domain? : Option Str
  target? : Option Str
deriving DecidableEq, Repr

/-- Python truthiness on an optional string: `None` and `""` are falsy. -/
def truthy : Option Str → Option Str
  | none => none
  | some s => if s = [] then none else some s

/-- One iteration of the `for rec in cnames` loop (lines 219-234):
skip the record when either field is missing or falsy, otherwise insert
first-writer-wins with a duplicate warning on an existing alias. -/
def mergeCname (src : String) (st : RecMap × List Conflict) (rec : CnameRec) :
    RecMap × List Conflict :=
  match truthy rec.domain?, truthy rec.target? with
  | some d, some t =>
    match lookupKey st.1 d with
    | none => (st.1 ++ [(d, t)], st.2)
    | some kept => (st.1, st.2 ++ [⟨src, "CNAME", d, t, kept⟩])
  | _, _ => st

/-- The whole CNAME loop of one source. -/
def processCnames (src : String) (st : RecMap × List Conflict)
    (recs : List CnameRec) : RecMap × List Conflict :=
  recs.foldl (mergeCname src) st

/-- The mutable state of `extract_records`: the two ordered mappings and
the logged duplicate warnings. -/
structure ExtractState where
  a_aaaa : RecMap
  cname : RecMap
  conflicts : List Conflict
deriving DecidableEq, Repr

/-- The observable behaviour of one configured Pi-hole server during a
run: `hosts? = none` means `api.get_hosts()` (or the lazy auth under it)
raised, `cnames? = none` means `api.get_cnames()` raised. -/
structure SourceRun where
  label : String
  hosts? : Option (List Str)
  cnames? : Option (List CnameRec)
deriving DecidableEq, Repr

/-- The body of the `for base_url, password in servers` loop of
`extract_records` (lines 195-238): fetch and merge hosts, then (only if
the host loop completed) fetch and merge cnames; any exception is caught
at the per-source boundary, merely logged, and the loop continues with
the state accumulated so far. -/
def processSource (st : ExtractState) (s : SourceRun) : ExtractState :=
  match s.hosts? with
  | none => st
  | some entries =>
    let hp := processHosts s.label st.a_aaaa st.conflicts entries
    if hp.ok then
      match s.cnames? with
      | none => ⟨hp.map, st.cname, hp.conflicts⟩
      | some recs =>
        let cc := processCnames s.label (st.cname, hp.conflicts) recs
        ⟨hp.map, cc.1, cc.2⟩
    else ⟨hp.map, st.cname, hp.conflicts⟩

/-- `extract_records` (lines 180-239): fold all sources, in the given
order, into initially empty mappings. -/
def extract_records (servers : List SourceRun) : ExtractState :=
  servers.foldl processSource ⟨[], [], []⟩

/-- The `metadata` block of the output document (lines 310-315). -/
structure Metadata where
  generated_by : String
  source : String
  count_a_aaaa : Nat
  count_cname : Nat
deriving DecidableEq, Repr

/-- The output document `output_data` of `main` (lines 307-316). -/
structure OutputData where
  a_aaaa : RecMap
  cname : RecMap
  metadata : Metadata
deriving DecidableEq, Repr

/-- Construction of `output_data` from the extraction result. -/
def buildOutput (st : ExtractState) : OutputData :=
  ⟨st.a_aaaa, st.cname,
    ⟨"extract_pihole_dns.py", "Pi-hole v6+ REST API",
      st.a_aaaa.length, st.cname.length⟩⟩

/-- The `--servers` argument as `main` sees it: empty (line 294),
rejected by `parse_servers_arg` (line 300), or parsed into a server list
whose runtime behaviour is the attached `SourceRun` list. -/
inductive ServersArg where
  | empty
  | malformed
  | parsed (runs : List SourceRun)
deriving DecidableEq, Repr

/-- `main` (lines 264-327): returns the exit code and the artifact
written (if any). `writeOk` abstracts whether `open/yaml.dump` on the
output path succeeds. `extract_records` never raises, so after a
successful argument parse the exit code depends only on the write. -/
def mainRun (arg : ServersArg) (writeOk : Bool) : Nat × Option OutputData :=
  match arg with
  | .empty => (1, none)
  | .malformed => (1, none)
  | .parsed runs =>
    let out := buildOutput (extract_records runs)
    if writeOk then (0, some out) else (1, none)

/-- `DEFAULT_RETRIES` (line 75), passed as `Retry(total=...)`. -/
def DEFAULT_RETRIES : Nat := 3

/-- `status_forcelist` of the retry strategy (line 101). -/
def STATUS_FORCELIST : List Nat := [429, 500, 502, 503, 504]

/-- The `urllib3` `Retry` machinery as configured in
`PiHoleAPI.__init__` (lines 97-106): `responses n` is the HTTP status of
the `n`-th request on the wire, `made` counts requests already made,
and the last argument is the remaining retry budget (`Retry.total`
counts *retries*, so a fresh budget of 3 allows up to 4 requests).
A response whose status is in the forcelist consumes a retry; once the
budget is exhausted the adapter raises `MaxRetryError`. Any other status
is returned to the caller. The result is the total number of requests
made and the outcome. -/
def retryLoop (responses : Nat → Nat) (made : Nat) : Nat → Nat × Except String Nat
  | 0 =>
    if STATUS_FORCELIST.contains (responses made) then
      (made + 1, Except.error "MaxRetryError")
    else (made + 1, Except.ok (responses made))
  | n + 1 =>
    if STATUS_FORCELIST.contains (responses made) then
      retryLoop responses (made + 1) n
    else (made + 1, Except.ok (responses made))

/-- `Response.raise_for_status()`: 4xx/5xx statuses raise `HTTPError`. -/
def raise_for_status (s : Nat) : Except String Nat :=
  if 400 ≤ s ∧ s < 600 then Except.error "HTTPError" else Except.ok s

/-- One `self.session.get/post(...)` followed by
`response.raise_for_status()`, under the mounted retry adapter with a
fresh `DEFAULT_RETRIES` budget: returns how many HTTP requests were made
and either the final status or the raised `RequestException`. -/
def sessionRequest (responses : Nat → Nat) : Nat × Except String Nat :=
  let r := retryLoop responses 0 DEFAULT_RETRIES
  (r.1, r.2.bind raise_for_status)

/-- `PiHoleAPI._auth` (lines 110-128): POST to `/auth`; any
`RequestException` is re-raised as `RuntimeError("Authentication failed:
...")`; a falsy `sid` in the body raises `ValueError`. `sidBody` is the
`sid` field of the JSON body of the successful response. -/
def piholeAuth (responses : Nat → Nat) (sidBody : Option Str) :
    Nat × Except String Str :=
  let r := sessionRequest responses
  match r.2 with
  | Except.error e => (r.1, Except.error ("Authentication failed: " ++ e))
  | Except.ok _ =>
    match truthy sidBody with
    | none => (r.1, Except.error "No session ID returned from auth endpoint")
    | some sid => (r.1, Except.ok sid)

/-- `PiHoleAPI.get_hosts` (lines 140-150), for an already-authenticated
session: GET `/config/dns/hosts`; any `RequestException` is re-raised as
`RuntimeError("Failed to fetch A/AAAA records: ...")`. Only the call
count and success/failure are relevant here. -/
def piholeFetch (responses : Nat → Nat) : Nat × Except String Unit :=
  let r := sessionRequest responses
  match r.2 with
  | Except.error e =>
    (r.1, Except.error ("Failed to fetch A/AAAA records: " ++ e))
  | Except.ok _ => (r.1, Except.ok ())

end PiholeDNS

namespace PiholeDNS

/-! ### Helper lemmas about Python string primitives -/

theorem dropWhile_head_false {p : Char → Bool} {c : Char} (t : Str)
    (h : p c = false) : (c :: t).dropWhile p = c :: t := by
  simp [List.dropWhile, h]

theorem dropWhile_idem (p : Char → Bool) (l : Str) :
    (l.dropWhile p).dropWhile p = l.dropWhile p := by
  induction l with
  | nil => rfl
  | cons a t ih =>
    by_cases h : p a
    · simp [List.dropWhile, h, ih]
    · simp [List.dropWhile, h]

theorem dropWhile_suffix_ex (p : Char → Bool) (l : Str) :
    ∃ s, l = s ++ l.dropWhile p := by
  induction l with
  | nil => exact ⟨[], rfl⟩
  | cons a t ih =>
    by_cases h : p a
    · obtain ⟨s, hs⟩ := ih
      exact ⟨a :: s, by simp [List.dropWhile, h]; exact hs⟩
    · exact ⟨[], by simp [List.dropWhile, h]⟩

theorem dropWhile_head_not {p : Char → Bool} :
    ∀ (l : Str) (c : Char), (l.dropWhile p).head? = some c → p c = false := by
  intro l
  induction l with
  | nil => intro c h; simp at h
  | cons a t ih =>
    intro c h
    by_cases ha : p a
    · exact ih c (by simpa [List.dropWhile, ha] using h)
    · simp [List.dropWhile, ha] at h
      subst h
      simpa using ha

theorem pyStrip_eq_stripTail (l : Str) :
    pyStrip l = stripTail (l.dropWhile isPySpace) := rfl

theorem stripTail_idem (l : Str) : stripTail (stripTail l) = stripTail l := by
  unfold stripTail
  rw [List.reverse_reverse, dropWhile_idem]

theorem stripTail_lead_ex (l : Str) : ∃ t, stripTail l ++ t = l := by
  obtain ⟨s, hs⟩ := dropWhile_suffix_ex isPySpace l.reverse
  refine ⟨s.reverse, ?_⟩
  have := congrArg List.reverse hs
  simpa [stripTail] using this.symm

theorem dropWhile_stripTail {l : Str} (h : l.dropWhile isPySpace = l) :
    (stripTail l).dropWhile isPySpace = stripTail l := by
  obtain ⟨t, ht⟩ := stripTail_lead_ex l
  cases hst : stripTail l with
  | nil => rfl
  | cons c cs =>
    have hl : l = c :: (cs ++ t) := by rw [← ht, hst]; simp
    have hc : isPySpace c = false := by
      apply dropWhile_head_not l
      rw [h, hl]
      rfl
    rw [dropWhile_head_false cs hc]

theorem pyStrip_idem (l : Str) : pyStrip (pyStrip l) = pyStrip l := by
  rw [pyStrip_eq_stripTail, pyStrip_eq_stripTail,
    dropWhile_stripTail (dropWhile_idem isPySpace l), stripTail_idem]

theorem dropWhile_eq_self_of_head {l : Str}
    (h : ∀ c, l.head? = some c → isPySpace c = false) :
    l.dropWhile isPySpace = l := by
  cases l with
  | nil => rfl
  | cons c t => exact dropWhile_head_false t (h c rfl)

theorem stripTail_eq_self_of_getLast {l : Str}
    (h : ∀ c, l.getLast? = some c → isPySpace c = false) :
    stripTail l = l := by
  unfold stripTail
  rw [dropWhile_eq_self_of_head, List.reverse_reverse]
  intro c hc
  exact h c (by rwa [List.head?_reverse] at hc)

theorem pyStrip_eq_self {l : Str}
    (h1 : ∀ c, l.head? = some c → isPySpace c = false)
    (h2 : ∀ c, l.getLast? = some c → isPySpace c = false) :
    pyStrip l = l := by
  rw [pyStrip_eq_stripTail, dropWhile_eq_self_of_head h1,
    stripTail_eq_self_of_getLast h2]

theorem takeWhile_append_stop {q : Char → Bool} {A : Str} {w : Char} (t : Str)
    (hA : ∀ c ∈ A, q c = true) (hw : q w = false) :
    (A ++ w :: t).takeWhile q = A := by
  induction A with
  | nil => simp [List.takeWhile, hw]
  | cons a as ih =>
    have ha : q a = true := hA a (List.mem_cons_self a as)
    simp only [List.cons_append, List.takeWhile, ha]
    exact congrArg (List.cons a) (ih fun c hc => hA c (List.mem_cons_of_mem a hc))

theorem dropWhile_append_stop {q : Char → Bool} {A : Str} {w : Char} (t : Str)
    (hA : ∀ c ∈ A, q c = true) (hw : q w = false) :
    (A ++ w :: t).dropWhile q = w :: t := by
  induction A with
  | nil => simp [List.dropWhile, hw]
  | cons a as ih =>
    have ha : q a = true := hA a (List.mem_cons_self a as)
    simp only [List.cons_append, List.dropWhile, ha]
    exact ih fun c hc => hA c (List.mem_cons_of_mem a hc)

theorem dropWhile_append_all {p : Char → Bool} {ws : Str} (rest : Str)
    (hws : ∀ c ∈ ws, p c = true) :
    (ws ++ rest).dropWhile p = rest.dropWhile p := by
  induction ws with
  | nil => rfl
  | cons w ws' ih =>
    have hw : p w = true := hws w (List.mem_cons_self w ws')
    simp only [List.cons_append, List.dropWhile, hw]
    exact ih fun c hc => hws c (List.mem_cons_of_mem w hc)

end PiholeDNS

namespace PiholeDNS

/-! ### Helper lemmas about the merge -/

theorem processHosts_nil (src : String) (m : RecMap) (cf : List Conflict) :
    processHosts src m cf [] = ⟨m, cf, true⟩ := rfl

theorem processHosts_cons_bad {e : Str} (src : String) (m : RecMap)
    (cf : List Conflict) (rest : List Str) (h : parse_host_entry e = none) :
    processHosts src m cf (e :: rest) = ⟨m, cf, false⟩ := by
  simp [processHosts, h]

theorem processHosts_cons_new {e ip hostname : Str} {m : RecMap} (src : String)
    (cf : List Conflict) (rest : List Str)
    (hp : parse_host_entry e = some (ip, hostname))
    (hl : lookupKey m hostname = none) :
    processHosts src m cf (e :: rest) =
      processHosts src (m ++ [(hostname, ip)]) cf rest := by
  simp [processHosts, hp, hl]

theorem processHosts_cons_dup {e ip hostname kept : Str} {m : RecMap}
    (src : String) (cf : List Conflict) (rest : List Str)
    (hp : parse_host_entry e = some (ip, hostname))
    (hl : lookupKey m hostname = some kept) :
    processHosts src m cf (e :: rest) =
      processHosts src m (cf ++ [⟨src, "A/AAAA", hostname, ip, kept⟩]) rest := by
  simp [processHosts, hp, hl]

theorem mergeCname_no_domain {rec : CnameRec} (src : String)
    (st : RecMap × List Conflict) (h : truthy rec.domain? = none) :
    mergeCname src st rec = st := by
  simp [mergeCname, h]

theorem mergeCname_no_target {rec : CnameRec} (src : String)
    (st : RecMap × List Conflict) (h : truthy rec.target? = none) :
    mergeCname src st rec = st := by
  cases hd : truthy rec.domain? <;> simp [mergeCname, hd, h]

theorem mergeCname_new {rec : CnameRec} {d t : Str} {cm : RecMap}
    (src : String) (cf : List Conflict)
    (hd : truthy rec.domain? = some d) (ht : truthy rec.target? = some t)
    (hl : lookupKey cm d = none) :
    mergeCname src (cm, cf) rec = (cm ++ [(d, t)], cf) := by
  simp [mergeCname, hd, ht, hl]

theorem mergeCname_dup {rec : CnameRec} {d t kept : Str} {cm : RecMap}
    (src : String) (cf : List Conflict)
    (hd : truthy rec.domain? = some d) (ht : truthy rec.target? = some t)
    (hl : lookupKey cm d = some kept) :
    mergeCname src (cm, cf) rec =
      (cm, cf ++ [⟨src, "CNAME", d, t, kept⟩]) := by
  simp [mergeCname, hd, ht, hl]

theorem lookupKey_append_left {m : RecMap} {k : Str} {v : Str} (m2 : RecMap)
    (h : lookupKey m k = some v) : lookupKey (m ++ m2) k = some v := by
  induction m with
  | nil => simp [lookupKey] at h
  | cons p rest ih =>
    obtain ⟨k', v'⟩ := p
    by_cases hk : k' = k
    · simpa [lookupKey, hk] using h
    · simp only [lookupKey, if_neg hk, List.cons_append] at h ⊢
      exact ih h

theorem lookupKey_append_self {m : RecMap} {k : Str} (v : Str)
    (h : lookupKey m k = none) : lookupKey (m ++ [(k, v)]) k = some v := by
  induction m with
  | nil => simp [lookupKey]
  | cons p rest ih =>
    obtain ⟨k', v'⟩ := p
    by_cases hk : k' = k
    · simp [lookupKey, hk] at h
    · simp only [lookupKey, if_neg hk, List.cons_append] at h ⊢
      exact ih h

theorem processHosts_map_mono {src : String} {m : RecMap} {cf : List Conflict}
    {k v : Str} (l : List Str) (h : lookupKey m k = some v) :
    lookupKey (processHosts src m cf l).map k = some v := by
  induction l generalizing m cf with
  | nil => simpa [processHosts_nil]
  | cons e rest ih =>
    cases hp : parse_host_entry e with
    | none => rw [processHosts_cons_bad src m cf rest hp]; exact h
    | some p =>
      obtain ⟨ip, hostname⟩ := p
      cases hl : lookupKey m hostname with
      | none =>
        rw [processHosts_cons_new src cf rest hp hl]
        exact ih (lookupKey_append_left [(hostname, ip)] h)
      | some kept =>
        rw [processHosts_cons_dup src cf rest hp hl]
        exact ih h

theorem processHosts_ok_eq (src : String) (m : RecMap) (cf : List Conflict)
    (l : List Str) :
    (processHosts src m cf l).ok = l.all (fun e => (parse_host_entry e).isSome) := by
  induction l generalizing m cf with
  | nil => simp [processHosts_nil]
  | cons e rest ih =>
    cases hp : parse_host_entry e with
    | none => simp [processHosts_cons_bad src m cf rest hp, hp]
    | some p =>
      obtain ⟨ip, hostname⟩ := p
      cases hl : lookupKey m hostname with
      | none => simp [processHosts_cons_new src cf rest hp hl, hp, ih]
      | some kept => simp [processHosts_cons_dup src cf rest hp hl, hp, ih]

theorem processHosts_map_cf (src : String) (m : RecMap)
    (cf cf' : List Conflict) (l : List Str) :
    (processHosts src m cf l).map = (processHosts src m cf' l).map := by
  induction l generalizing m cf cf' with
  | nil => rfl
  | cons e rest ih =>
    cases hp : parse_host_entry e with
    | none =>
      rw [processHosts_cons_bad src m cf rest hp,
        processHosts_cons_bad src m cf' rest hp]
    | some p =>
      obtain ⟨ip, hostname⟩ := p
      cases hl : lookupKey m hostname with
      | none =>
        rw [processHosts_cons_new src cf rest hp hl,
          processHosts_cons_new src cf' rest hp hl]
        exact ih _ _ _
      | some kept =>
        rw [processHosts_cons_dup src cf rest hp hl,
          processHosts_cons_dup src cf' rest hp hl]
        exact ih _ _ _

theorem processHosts_map_idem (src src' : String) (m : RecMap)
    (cf cf2 : List Conflict) (l : List Str) :
    (processHosts src' (processHosts src m cf l).map cf2 l).map =
      (processHosts src m cf l).map := by
  induction l generalizing m cf cf2 with
  | nil => simp [processHosts_nil]
  | cons e rest ih =>
    cases hp : parse_host_entry e with
    | none =>
      rw [processHosts_cons_bad src m cf rest hp]
      rw [processHosts_cons_bad src' _ cf2 rest hp]
    | some p =>
      obtain ⟨ip, hostname⟩ := p
      cases hl : lookupKey m hostname with
      | none =>
        rw [processHosts_cons_new src cf rest hp hl]
        have hmem : lookupKey
            (processHosts src (m ++ [(hostname, ip)]) cf rest).map hostname
            = some ip :=
          processHosts_map_mono rest (lookupKey_append_self ip hl)
        rw [processHosts_cons_dup src' cf2 rest hp hmem]
        exact ih _ _ _
      | some kept =>
        rw [processHosts_cons_dup src cf rest hp hl]
        have hmem : lookupKey (processHosts src m
            (cf ++ [⟨src, "A/AAAA", hostname, ip, kept⟩]) rest).map hostname
            = some kept :=
          processHosts_map_mono rest hl
        rw [processHosts_cons_dup src' cf2 rest hp hmem]
        exact ih _ _ _

theorem processCnames_cons (src : String) (st : RecMap × List Conflict)
    (r : CnameRec) (recs : List CnameRec) :
    processCnames src st (r :: recs) =
      processCnames src (mergeCname src st r) recs := rfl

end PiholeDNS

namespace PiholeDNS

theorem processCnames_map_mono {src : String} {cm : RecMap}
    {cf : List Conflict} {k v : Str} (recs : List CnameRec)
    (h : lookupKey cm k = some v) :
    lookupKey (processCnames src (cm, cf) recs).1 k = some v := by
  induction recs generalizing cm cf with
  | nil => simpa [processCnames]
  | cons r rest ih =>
    rw [processCnames_cons]
    cases hd : truthy r.domain? with
    | none => rw [mergeCname_no_domain src _ hd]; exact ih h
    | some d =>
      cases ht : truthy r.target? with
      | none => rw [mergeCname_no_target src _ ht]; exact ih h
      | some t =>
        cases hl : lookupKey cm d with
        | none =>
          rw [mergeCname_new src cf hd ht hl]
          exact ih (lookupKey_append_left [(d, t)] h)
        | some kept =>
          rw [mergeCname_dup src cf hd ht hl]
          exact ih h

theorem processCnames_map_cf (src : String) (cm : RecMap)
    (cf cf' : List Conflict) (recs : List CnameRec) :
    (processCnames src (cm, cf) recs).1 = (processCnames src (cm, cf') recs).1 := by
  induction recs generalizing cm cf cf' with
  | nil => rfl
  | cons r rest ih =>
    rw [processCnames_cons, processCnames_cons]
    cases hd : truthy r.domain? with
    | none =>
      rw [mergeCname_no_domain src _ hd, mergeCname_no_domain src _ hd]
      exact ih _ _ _
    | some d =>
      cases ht : truthy r.target? with
      | none =>
        rw [mergeCname_no_target src _ ht, mergeCname_no_target src _ ht]
        exact ih _ _ _
      | some t =>
        cases hl : lookupKey cm d with
        | none =>
          rw [mergeCname_new src cf hd ht hl, mergeCname_new src cf' hd ht hl]
          exact ih _ _ _
        | some kept =>
          rw [mergeCname_dup src cf hd ht hl, mergeCname_dup src cf' hd ht hl]
          exact ih _ _ _

theorem processCnames_map_idem (src src' : String) (cm : RecMap)
    (cf cf2 : List Conflict) (recs : List CnameRec) :
    (processCnames src' ((processCnames src (cm, cf) recs).1, cf2) recs).1 =
      (processCnames src (cm, cf) recs).1 := by
  induction recs generalizing cm cf cf2 with
  | nil => simp [processCnames]
  | cons r rest ih =>
    rw [processCnames_cons, processCnames_cons]
    cases hd : truthy r.domain? with
    | none =>
      rw [mergeCname_no_domain src _ hd, mergeCname_no_domain src' _ hd]
      exact ih _ _ _
    | some d =>
      cases ht : truthy r.target? with
      | none =>
        rw [mergeCname_no_target src _ ht, mergeCname_no_target src' _ ht]
        exact ih _ _ _
      | some t =>
        cases hl : lookupKey cm d with
        | none =>
          rw [mergeCname_new src cf hd ht hl]
          have hmem : lookupKey (processCnames src (cm ++ [(d, t)], cf) rest).1 d
              = some t :=
            processCnames_map_mono rest (lookupKey_append_self t hl)
          rw [mergeCname_dup src' cf2 hd ht hmem]
          exact ih _ _ _
        | some kept =>
          rw [mergeCname_dup src cf hd ht hl]
          have hmem : lookupKey (processCnames src
              (cm, cf ++ [⟨src, "CNAME", d, t, kept⟩]) rest).1 d = some kept :=
            processCnames_map_mono rest hl
          rw [mergeCname_dup src' cf2 hd ht hmem]
          exact ih _ _ _

end PiholeDNS

namespace PiholeDNS

theorem processSource_no_hosts (st : ExtractState) (s : SourceRun)
    (h : s.hosts? = none) : processSource st s = st := by
  simp [processSource, h]

theorem processSource_ok_no_cnames {s : SourceRun} {entries : List Str}
    (st : ExtractState) (h : s.hosts? = some entries)
    (hok : (processHosts s.label st.a_aaaa st.conflicts entries).ok = true)
    (hc : s.cnames? = none) :
    processSource st s =
      ⟨(processHosts s.label st.a_aaaa st.conflicts entries).map, st.cname,
        (processHosts s.label st.a_aaaa st.conflicts entries).conflicts⟩ := by
  simp [processSource, h, hc, hok]

theorem processSource_ok_cnames {s : SourceRun} {entries : List Str}
    {recs : List CnameRec} (st : ExtractState) (h : s.hosts? = some entries)
    (hok : (processHosts s.label st.a_aaaa st.conflicts entries).ok = true)
    (hc : s.cnames? = some recs) :
    processSource st s =
      ⟨(processHosts s.label st.a_aaaa st.conflicts entries).map,
        (processCnames s.label (st.cname,
          (processHosts s.label st.a_aaaa st.conflicts entries).conflicts) recs).1,
        (processCnames s.label (st.cname,
          (processHosts s.label st.a_aaaa st.conflicts entries).conflicts) recs).2⟩ := by
  simp [processSource, h, hc, hok]

theorem processSource_hosts_abort {s : SourceRun} {entries : List Str}
    (st : ExtractState) (h : s.hosts? = some entries)
    (hok : (processHosts s.label st.a_aaaa st.conflicts entries).ok = false) :
    processSource st s =
      ⟨(processHosts s.label st.a_aaaa st.conflicts entries).map, st.cname,
        (processHosts s.label st.a_aaaa st.conflicts entries).conflicts⟩ := by
  simp [processSource, h, hok]

theorem processSource_maps_idem (st : ExtractState) (s : SourceRun) :
    (processSource (processSource st s) s).a_aaaa = (processSource st s).a_aaaa ∧
    (processSource (processSource st s) s).cname = (processSource st s).cname := by
  cases hh : s.hosts? with
  | none =>
    rw [processSource_no_hosts st s hh, processSource_no_hosts st s hh]
    exact ⟨rfl, rfl⟩
  | some entries =>
    cases hok : (processHosts s.label st.a_aaaa st.conflicts entries).ok with
    | false =>
      rw [processSource_hosts_abort st hh hok]
      have hok2 : (processHosts s.label
          (processHosts s.label st.a_aaaa st.conflicts entries).map
          (processHosts s.label st.a_aaaa st.conflicts entries).conflicts
          entries).ok = false := by
        rw [processHosts_ok_eq, ← processHosts_ok_eq s.label st.a_aaaa st.conflicts, hok]
      rw [processSource_hosts_abort _ hh hok2]
      exact ⟨processHosts_map_idem _ _ _ _ _ _, rfl⟩
    | true =>
      cases hc : s.cnames? with
      | none =>
        rw [processSource_ok_no_cnames st hh hok hc]
        have hok2 : (processHosts s.label
            (processHosts s.label st.a_aaaa st.conflicts entries).map
            (processHosts s.label st.a_aaaa st.conflicts entries).conflicts
            entries).ok = true := by
          rw [processHosts_ok_eq, ← processHosts_ok_eq s.label st.a_aaaa st.conflicts, hok]
        rw [processSource_ok_no_cnames _ hh hok2 hc]
        exact ⟨processHosts_map_idem _ _ _ _ _ _, rfl⟩
      | some recs =>
        rw [processSource_ok_cnames st hh hok hc]
        have hok2 : (processHosts s.label
            (processHosts s.label st.a_aaaa st.conflicts entries).map
            (processCnames s.label (st.cname,
              (processHosts s.label st.a_aaaa st.conflicts entries).conflicts)
              recs).2 entries).ok = true := by
          rw [processHosts_ok_eq, ← processHosts_ok_eq s.label st.a_aaaa st.conflicts, hok]
        rw [processSource_ok_cnames _ hh hok2 hc]
        refine ⟨processHosts_map_idem _ _ _ _ _ _, ?_⟩
        exact processCnames_map_idem s.label s.label st.cname
          (processHosts s.label st.a_aaaa st.conflicts entries).conflicts _ recs

end PiholeDNS

namespace PiholeDNS

theorem pySplitFirst_eq {l : Str} {c : Char} {t : Str}
    (h : l.dropWhile isPySpace = c :: t) :
    pySplitFirst l =
      if ((c :: t).dropWhile (fun x => !isPySpace x)).dropWhile isPySpace = []
      then [(c :: t).takeWhile (fun x => !isPySpace x)]
      else [(c :: t).takeWhile (fun x => !isPySpace x),
        ((c :: t).dropWhile (fun x => !isPySpace x)).dropWhile isPySpace] := by
  simp [pySplitFirst, h]

/-- Full characterisation of a successful parse: an entry made of a
non-empty whitespace-free address, a non-empty whitespace run, and a
non-empty remainder with non-whitespace first and last characters parses
to exactly (address, remainder). -/
theorem parse_host_entry_valid (A ws rest : Str)
    (hA : A ≠ []) (hAns : ∀ c ∈ A, isPySpace c = false)
    (hws : ws ≠ []) (hwss : ∀ c ∈ ws, isPySpace c = true)
    (hr : rest ≠ [])
    (hrh : ∀ c, rest.head? = some c → isPySpace c = false)
    (hrl : ∀ c, rest.getLast? = some c → isPySpace c = false) :
    parse_host_entry (A ++ ws ++ rest) = some (A, rest) := by
  cases A with
  | nil => exact absurd rfl hA
  | cons a A' =>
    cases ws with
    | nil => exact absurd rfl hws
    | cons w ws' =>
      have ha : isPySpace a = false := hAns a (List.mem_cons_self a A')
      have hw : isPySpace w = true := hwss w (List.mem_cons_self w ws')
      have hhead : ∀ c, ((a :: A') ++ (w :: ws') ++ rest).head? = some c →
          isPySpace c = false := by
        intro c hc
        simp only [List.cons_append, List.head?_cons, Option.some.injEq] at hc
        rw [← hc]
        exact ha
      have hlast : ∀ c, ((a :: A') ++ (w :: ws') ++ rest).getLast? = some c →
          isPySpace c = false := by
        intro c hc
        rw [List.getLast?_append_of_ne_nil _ hr] at hc
        exact hrl c hc
      have hstrip : pyStrip ((a :: A') ++ (w :: ws') ++ rest) =
          (a :: A') ++ (w :: ws') ++ rest :=
        pyStrip_eq_self hhead hlast
      have hdrop : ((a :: A') ++ (w :: ws') ++ rest).dropWhile isPySpace =
          (a :: A') ++ (w :: ws') ++ rest :=
        dropWhile_eq_self_of_head hhead
      have hdrop' : ((a :: A') ++ (w :: ws') ++ rest).dropWhile isPySpace =
          a :: (A' ++ (w :: ws') ++ rest) := by
        rw [hdrop]; simp
      have hAq : ∀ c ∈ a :: A', (fun x => !isPySpace x) c = true := by
        intro c hc
        simp [hAns c hc]
      have htok : ((a :: A') ++ ((w :: ws') ++ rest)).takeWhile
          (fun x => !isPySpace x) = a :: A' := by
        have := takeWhile_append_stop (q := fun x => !isPySpace x)
          (A := a :: A') (w := w) (ws' ++ rest) hAq (by simp [hw])
        simpa using this
      have hdropq : ((a :: A') ++ ((w :: ws') ++ rest)).dropWhile
          (fun x => !isPySpace x) = w :: (ws' ++ rest) := by
        have := dropWhile_append_stop (q := fun x => !isPySpace x)
          (A := a :: A') (w := w) (ws' ++ rest) hAq (by simp [hw])
        simpa using this
      have hrest : ((w :: ws') ++ rest).dropWhile isPySpace = rest := by
        rw [dropWhile_append_all rest hwss]
        exact dropWhile_eq_self_of_head hrh
      unfold parse_host_entry
      rw [hstrip, pySplitFirst_eq hdrop']
      have e1 : (a :: (A' ++ (w :: ws') ++ rest)) =
          ((a :: A') ++ ((w :: ws') ++ rest)) := by simp
      rw [e1, htok, hdropq]
      have e2 : (w :: (ws' ++ rest)) = ((w :: ws') ++ rest) := by simp
      rw [e2, hrest, if_neg hr]

end PiholeDNS

namespace PiholeDNS

/-! ### Retry step lemmas -/

theorem retryLoop_stop {responses : Nat → Nat} {made : Nat} (n : Nat)
    (h : STATUS_FORCELIST.contains (responses made) = false) :
    retryLoop responses made n = (made + 1, Except.ok (responses made)) := by
  have h' : responses made ∉ STATUS_FORCELIST := by simpa using h
  cases n <;> simp [retryLoop, h']

theorem retryLoop_retry {responses : Nat → Nat} {made n : Nat}
    (h : STATUS_FORCELIST.contains (responses made) = true) :
    retryLoop responses made (n + 1) = retryLoop responses (made + 1) n := by
  have h' : responses made ∈ STATUS_FORCELIST := by simpa using h
  simp [retryLoop, h']

theorem retryLoop_all_force {responses : Nat → Nat}
    (h : ∀ i, STATUS_FORCELIST.contains (responses i) = true) :
    ∀ (n made : Nat),
      retryLoop responses made n = (made + n + 1, Except.error "MaxRetryError") := by
  intro n
  induction n with
  | zero =>
    intro made
    have h' : responses made ∈ STATUS_FORCELIST := by simpa using h made
    simp [retryLoop, h']
  | succ k ih =>
    intro made
    rw [retryLoop_retry (h made), ih (made + 1)]
    have : made + 1 + k + 1 = made + (k + 1) + 1 := by omega
    rw [this]

end PiholeDNS

namespace PiholeDNS

/-! ### Claim theorems -/

/-- C9: a CNAME record whose `domain` or `target` field is present but
equal to the empty string is skipped exactly as if the field were
missing: the merge state is unchanged, and the behaviour coincides with
the missing-field behaviour (Python truthiness, not mere presence). -/
theorem c9_empty_cname_field_skipped (src : String)
    (st : RecMap × List Conflict) (d? t? : Option Str) :
    mergeCname src st ⟨some [], t?⟩ = st ∧
    mergeCname src st ⟨some [], t?⟩ = mergeCname src st ⟨none, t?⟩ ∧
    mergeCname src st ⟨d?, some []⟩ = st ∧
    mergeCname src st ⟨d?, some []⟩ = mergeCname src st ⟨d?, none⟩ := by
  refine ⟨?_, ?_, ?_, ?_⟩
  · exact @mergeCname_no_domain ⟨some [], t?⟩ src st rfl
  · rw [@mergeCname_no_domain ⟨some [], t?⟩ src st rfl,
      @mergeCname_no_domain ⟨none, t?⟩ src st rfl]
  · exact @mergeCname_no_target ⟨d?, some []⟩ src st rfl
  · rw [@mergeCname_no_target ⟨d?, some []⟩ src st rfl,
      @mergeCname_no_target ⟨d?, none⟩ src st rfl]

/-- C10: host-entry parsing tolerates surrounding whitespace: parsing is
invariant under pre-stripping, the entry `"  1.2.3.4   host  "` parses to
`("1.2.3.4", "host")` with no whitespace in either component, and an
all-whitespace entry is rejected as malformed. -/
theorem c10_strip_tolerant :
    (∀ l : Str, parse_host_entry (pyStrip l) = parse_host_entry l) ∧
    parse_host_entry "  1.2.3.4   host  ".data =
      some ("1.2.3.4".data, "host".data) ∧
    (∀ l : Str, (∀ c ∈ l, isPySpace c = true) → parse_host_entry l = none) := by
  refine ⟨?_, by decide, ?_⟩
  · intro l
    unfold parse_host_entry
    rw [pyStrip_idem]
  · intro l h
    unfold parse_host_entry
    have h1 : l.dropWhile isPySpace = [] := by
      rw [List.dropWhile_eq_nil_iff]
      intro x hx
      exact h x hx
    have h2 : pyStrip l = [] := by
      rw [pyStrip_eq_stripTail, h1]
      rfl
    rw [h2]
    rfl

/-- C10 witness: the second conjunct at a concrete input, the first at
`"x"`, the third at `" "`. -/
theorem c10_strip_tolerant_witness :
    parse_host_entry (pyStrip ['x']) = parse_host_entry ['x'] ∧
    parse_host_entry "  1.2.3.4   host  ".data =
      some ("1.2.3.4".data, "host".data) ∧
    parse_host_entry [' '] = none :=
  ⟨c10_strip_tolerant.1 ['x'], c10_strip_tolerant.2.1,
    c10_strip_tolerant.2.2 [' '] (by decide)⟩

/-- C6 counterexample: the claim quantifies over every string of the form
`"<address> <rest>"` with `rest` non-empty and without leading
whitespace, and demands the result `(address, rest)` exactly. For
`address = "1"` and `rest = "h "` (non-empty, no leading whitespace) the
code strips the entry first and returns `("1", "h")`, not `("1", "h ")`. -/
theorem c6_counterexample :
    parse_host_entry (['1'] ++ [' '] ++ ['h', ' ']) = some (['1'], ['h']) ∧
    (['h'] : Str) ≠ ['h', ' '] := by
  decide

/-- C6 amended: for every entry of the form `address ++ run ++ rest`
where `address` is non-empty without whitespace, `run` is a non-empty
whitespace run, and `rest` is non-empty with neither leading nor
*trailing* whitespace (but possibly interior whitespace), parsing
returns exactly `(address, rest)`, splitting on the first whitespace run
only. -/
theorem c6_amended_valid_parse (A ws rest : Str)
    (hA : A ≠ []) (hAns : ∀ c ∈ A, isPySpace c = false)
    (hws : ws ≠ []) (hwss : ∀ c ∈ ws, isPySpace c = true)
    (hr : rest ≠ [])
    (hrh : rest.head?.all (fun c => !isPySpace c) = true)
    (hrl : rest.getLast?.all (fun c => !isPySpace c) = true) :
    parse_host_entry (A ++ ws ++ rest) = some (A, rest) := by
  apply parse_host_entry_valid A ws rest hA hAns hws hwss hr
  · intro c hc
    rw [hc] at hrh
    simpa using hrh
  · intro c hc
    rw [hc] at hrl
    simpa using hrl

/-- C6 witness: `"1.2 h x"` with `rest = "h x"` (interior whitespace kept,
split happens on the first run only). -/
theorem c6_amended_valid_parse_witness :
    parse_host_entry (['1', '.', '2'] ++ [' '] ++ ['h', ' ', 'x']) =
      some (['1', '.', '2'], ['h', ' ', 'x']) :=
  c6_amended_valid_parse ['1', '.', '2'] [' '] ['h', ' ', 'x']
    (by decide) (by decide) (by decide) (by decide) (by decide)
    (by decide) (by decide)

/-- C7 counterexample: with `Retry(total=3)` every request whose status
is in the forcelist consumes one *retry*, so a source answering 503 on
every attempt is hit with 4 HTTP calls (initial attempt + 3 retries),
not exactly 3 as the claim demands, before the fetch fails. -/
theorem c7_counterexample :
    piholeFetch (fun _ => 503) =
      (DEFAULT_RETRIES + 1,
        Except.error "Failed to fetch A/AAAA records: MaxRetryError") ∧
    DEFAULT_RETRIES + 1 ≠ DEFAULT_RETRIES :=
  ⟨rfl, by decide⟩

/-- C7 amended: a source whose every fetch attempt returns HTTP 503
ultimately fails with the wrapped `SourceError`, and the total number of
HTTP calls equals the configured retry limit **plus one** (the initial
attempt followed by `DEFAULT_RETRIES` retries), not more. -/
theorem c7_amended_retry_bound (responses : Nat → Nat)
    (h : ∀ i, responses i = 503) :
    piholeFetch responses =
      (DEFAULT_RETRIES + 1,
        Except.error "Failed to fetch A/AAAA records: MaxRetryError") := by
  have hf : ∀ i, STATUS_FORCELIST.contains (responses i) = true := by
    intro i
    rw [h i]
    decide
  have hloop := retryLoop_all_force hf DEFAULT_RETRIES 0
  simp only [piholeFetch, sessionRequest, hloop]
  rfl

/-- C7 witness: the constant-503 backend. -/
theorem c7_amended_retry_bound_witness :
    piholeFetch (fun _ => 503) =
      (DEFAULT_RETRIES + 1,
        Except.error "Failed to fetch A/AAAA records: MaxRetryError") :=
  c7_amended_retry_bound (fun _ => 503) (fun _ => rfl)

/-- C8: a source answering HTTP 401 on the auth endpoint fails
immediately with the auth error after exactly one HTTP attempt: 401 is
not in the retry forcelist, so no retry is consumed, and
`raise_for_status` turns the response into the wrapped failure. -/
theorem c8_auth_401_no_retry (responses : Nat → Nat) (sidBody : Option Str)
    (h : responses 0 = 401) :
    piholeAuth responses sidBody =
      (1, Except.error "Authentication failed: HTTPError") := by
  have hstop : retryLoop responses 0 DEFAULT_RETRIES =
      (1, Except.ok 401) := by
    rw [retryLoop_stop DEFAULT_RETRIES (by rw [h]; decide), h]
  simp only [piholeAuth, sessionRequest, hstop]
  rfl

/-- C8 witness: the constant-401 backend with no session id in the body. -/
theorem c8_auth_401_no_retry_witness :
    piholeAuth (fun _ => 401) none =
      (1, Except.error "Authentication failed: HTTPError") :=
  c8_auth_401_no_retry (fun _ => 401) none rfl

end PiholeDNS

namespace PiholeDNS

theorem processHosts_abort_on_bad (src : String) :
    ∀ (pre : List Str) (m : RecMap) (cf : List Conflict) (bad : Str)
      (post : List Str),
      pre.all (fun e => (parse_host_entry e).isSome) = true →
      parse_host_entry bad = none →
      processHosts src m cf (pre ++ bad :: post) =
        ⟨(processHosts src m cf pre).map,
          (processHosts src m cf pre).conflicts, false⟩ := by
  intro pre
  induction pre with
  | nil =>
    intro m cf bad post _ hbad
    rw [List.nil_append, processHosts_cons_bad src m cf post hbad,
      processHosts_nil]
  | cons e pre' ih =>
    intro m cf bad post hpre hbad
    rw [List.all_cons, Bool.and_eq_true] at hpre
    obtain ⟨⟨ip, hn⟩, hp⟩ := Option.isSome_iff_exists.mp hpre.1
    cases hl : lookupKey m hn with
    | none =>
      rw [List.cons_append,
        processHosts_cons_new src cf (pre' ++ bad :: post) hp hl,
        processHosts_cons_new src cf pre' hp hl]
      exact ih _ _ _ _ hpre.2 hbad
    | some kept =>
      rw [List.cons_append,
        processHosts_cons_dup src cf (pre' ++ bad :: post) hp hl,
        processHosts_cons_dup src cf pre' hp hl]
      exact ih _ _ _ _ hpre.2 hbad

/-- C1 counterexample: a run whose only configured source is unreachable
(its fetch raises) merges nothing, yet when the output file is writable
`main` still writes the (empty) artifact and returns exit code 0 — the
claim demands a non-zero exit when no source could be reached. -/
theorem c1_counterexample :
    mainRun (ServersArg.parsed [⟨"ns1", none, none⟩]) true =
      (0, some ⟨[], [],
        ⟨"extract_pihole_dns.py", "Pi-hole v6+ REST API", 0, 0⟩⟩) := by
  decide

/-- C1 amended: the exit code is 0 exactly when the `--servers` argument
was non-empty and well-formed and the output file was written; source
failures never influence the exit code (per-source errors are swallowed
inside `extract_records`). The artifact is written exactly on exit 0. -/
theorem c1_amended_exit_code (arg : ServersArg) (writeOk : Bool) :
    ((mainRun arg writeOk).1 = 0 ↔
      (∃ runs, arg = ServersArg.parsed runs) ∧ writeOk = true) ∧
    ((mainRun arg writeOk).2 ≠ none ↔ (mainRun arg writeOk).1 = 0) := by
  cases arg <;> cases writeOk <;> simp [mainRun]

/-- C2 counterexample: one malformed entry (`"bad"`, a single token)
among valid entries of the same batch. The claim demands that every
other valid entry of the batch survive; in the code the `ValueError`
escapes to the per-source handler, so the valid entry `"2 b"` that
follows the malformed one is lost (only `"1 a"`, processed before it,
is present). -/
theorem c2_counterexample :
    extract_records
        [⟨"A", some [['1', ' ', 'a'], ['b', 'a', 'd'], ['2', ' ', 'b']],
          some []⟩] =
      ⟨[(['a'], ['1'])], [], []⟩ ∧
    lookupKey (extract_records
        [⟨"A", some [['1', ' ', 'a'], ['b', 'a', 'd'], ['2', ' ', 'b']],
          some []⟩]).a_aaaa ['b'] = none := by
  decide

/-- C2 amended: a malformed host entry aborts the remainder of that
source's batch rather than being skipped individually: entries before it
are retained (with their conflicts), entries after it are discarded, the
host pass reports failure, and the source's CNAME batch is never merged.
Other sources are unaffected (the per-source handler catches the error). -/
theorem c2_amended_batch_abort (src : String) (m : RecMap)
    (cf : List Conflict) (pre post : List Str) (bad : Str)
    (st : ExtractState) (cn : Option (List CnameRec))
    (hpre : pre.all (fun e => (parse_host_entry e).isSome) = true)
    (hbad : parse_host_entry bad = none) :
    processHosts src m cf (pre ++ bad :: post) =
      ⟨(processHosts src m cf pre).map,
        (processHosts src m cf pre).conflicts, false⟩ ∧
    (processSource st ⟨src, some (pre ++ bad :: post), cn⟩).cname = st.cname := by
  refine ⟨processHosts_abort_on_bad src pre m cf bad post hpre hbad, ?_⟩
  have hok : (processHosts src st.a_aaaa st.conflicts
      (pre ++ bad :: post)).ok = false := by
    rw [processHosts_abort_on_bad src pre st.a_aaaa st.conflicts bad post
      hpre hbad]
  rw [processSource_hosts_abort st rfl hok]

/-- C2 witness: batch `["1 a", "bad", "2 b"]` of source A. -/
theorem c2_amended_batch_abort_witness :
    processHosts "A" [] [] ([['1', ' ', 'a']] ++ ['b', 'a', 'd'] ::
        [['2', ' ', 'b']]) =
      ⟨(processHosts "A" [] [] [['1', ' ', 'a']]).map,
        (processHosts "A" [] [] [['1', ' ', 'a']]).conflicts, false⟩ ∧
    (processSource ⟨[], [], []⟩ ⟨"A", some ([['1', ' ', 'a']] ++
        ['b', 'a', 'd'] :: [['2', ' ', 'b']]), some []⟩).cname =
      (⟨[], [], []⟩ : ExtractState).cname :=
  c2_amended_batch_abort "A" [] [] [['1', ' ', 'a']] [['2', ' ', 'b']]
    ['b', 'a', 'd'] ⟨[], [], []⟩ (some []) (by decide) (by decide)

/-- C3 counterexample: source B fails with the wrapped source error while
fetching its CNAME records, after its host records were already merged —
so the final CanonicalSet is *not* the merge of only the successful
sources ([A]). Moreover a failed source leaves no trace in the output
artifact: the artifact produced with dead source B present is identical
to the artifact produced without B, so the artifact cannot name failed
sources or their error kinds. -/
theorem c3_counterexample :
    (extract_records [⟨"A", some [['1', ' ', 'a']], some []⟩,
        ⟨"B", some [['2', ' ', 'b']], none⟩]).a_aaaa ≠
      (extract_records [⟨"A", some [['1', ' ', 'a']], some []⟩]).a_aaaa ∧
    buildOutput (extract_records [⟨"A", some [['1', ' ', 'a']], some []⟩,
        ⟨"B", none, none⟩]) =
      buildOutput (extract_records [⟨"A", some [['1', ' ', 'a']], some []⟩]) := by
  decide

/-- C3 amended: a source that fails while fetching host records
contributes nothing and is invisible in the final state and artifact
(it is only logged); a source that fails while fetching alias records
still contributes its already-merged host records; the artifact carries
no failed-source report. -/
theorem c3_amended_failed_sources (st : ExtractState) (s : SourceRun)
    (runs1 runs2 : List SourceRun) (lbl : String) (entries : List Str)
    (h : s.hosts? = none) :
    processSource st s = st ∧
    extract_records (runs1 ++ s :: runs2) = extract_records (runs1 ++ runs2) ∧
    (processSource st ⟨lbl, some entries, none⟩).a_aaaa =
      (processHosts lbl st.a_aaaa st.conflicts entries).map ∧
    buildOutput (extract_records (runs1 ++ s :: runs2)) =
      buildOutput (extract_records (runs1 ++ runs2)) := by
  have h2 : extract_records (runs1 ++ s :: runs2) =
      extract_records (runs1 ++ runs2) := by
    unfold extract_records
    rw [List.foldl_append, List.foldl_append, List.foldl_cons,
      processSource_no_hosts (List.foldl processSource ⟨[], [], []⟩ runs1) s h]
  refine ⟨processSource_no_hosts st s h, h2, ?_, by rw [h2]⟩
  cases hok : (processHosts lbl st.a_aaaa st.conflicts entries).ok with
  | true => rw [processSource_ok_no_cnames st rfl hok rfl]
  | false => rw [processSource_hosts_abort st rfl hok]

/-- C3 witness: A succeeds, B dead at host fetch (for the skip parts),
and a source failing at the CNAME fetch (for the retention part). -/
theorem c3_amended_failed_sources_witness :
    processSource ⟨[], [], []⟩ ⟨"B", none, none⟩ = ⟨[], [], []⟩ ∧
    extract_records ([⟨"A", some [['1', ' ', 'a']], some []⟩] ++
        ⟨"B", none, none⟩ :: []) =
      extract_records ([⟨"A", some [['1', ' ', 'a']], some []⟩] ++ []) ∧
    (processSource ⟨[], [], []⟩ ⟨"B", some [['2', ' ', 'b']], none⟩).a_aaaa =
      (processHosts "B" [] [] [['2', ' ', 'b']]).map ∧
    buildOutput (extract_records ([⟨"A", some [['1', ' ', 'a']], some []⟩] ++
        ⟨"B", none, none⟩ :: [])) =
      buildOutput (extract_records ([⟨"A", some [['1', ' ', 'a']], some []⟩] ++ [])) :=
  c3_amended_failed_sources ⟨[], [], []⟩ ⟨"B", none, none⟩
    [⟨"A", some [['1', ' ', 'a']], some []⟩] [] "B" [['2', ' ', 'b']] rfl

/-- C4: first-writer-wins. Generally, a host entry whose hostname is
already mapped to a different value leaves the mapping untouched and
appends one conflict naming the processing source, the key, the rejected
and the kept value (same for an alias record); and concretely, sources
A = h→1.1.1.1 and B = h→2.2.2.2 merged as [A,B] give h→1.1.1.1 with one
conflict against B, while [B,A] give h→2.2.2.2 with one conflict
against A. -/
theorem c4_first_writer_wins (src : String) (m cm : RecMap)
    (cf cf' : List Conflict) (e ip hn v d t v' : Str) (rest : List Str)
    (rec : CnameRec)
    (hp : parse_host_entry e = some (ip, hn))
    (hl : lookupKey m hn = some v) (hne : ip ≠ v)
    (hd : truthy rec.domain? = some d) (ht : truthy rec.target? = some t)
    (hl' : lookupKey cm d = some v') (hne' : t ≠ v') :
    processHosts src m cf (e :: rest) =
      processHosts src m (cf ++ [⟨src, "A/AAAA", hn, ip, v⟩]) rest ∧
    mergeCname src (cm, cf') rec = (cm, cf' ++ [⟨src, "CNAME", d, t, v'⟩]) ∧
    extract_records
        [⟨"A", some [['1', '.', '1', '.', '1', '.', '1', ' ', 'h']], some []⟩,
          ⟨"B", some [['2', '.', '2', '.', '2', '.', '2', ' ', 'h']], some []⟩] =
      ⟨[(['h'], ['1', '.', '1', '.', '1', '.', '1'])], [],
        [⟨"B", "A/AAAA", ['h'], ['2', '.', '2', '.', '2', '.', '2'],
          ['1', '.', '1', '.', '1', '.', '1']⟩]⟩ ∧
    extract_records
        [⟨"B", some [['2', '.', '2', '.', '2', '.', '2', ' ', 'h']], some []⟩,
          ⟨"A", some [['1', '.', '1', '.', '1', '.', '1', ' ', 'h']], some []⟩] =
      ⟨[(['h'], ['2', '.', '2', '.', '2', '.', '2'])], [],
        [⟨"A", "A/AAAA", ['h'], ['1', '.', '1', '.', '1', '.', '1'],
          ['2', '.', '2', '.', '2', '.', '2']⟩]⟩ :=
  ⟨processHosts_cons_dup src cf rest hp hl,
    mergeCname_dup src cf' hd ht hl', by decide, by decide⟩

/-- C4 witness: host step with `h` already mapped to `"1"` seeing `"2"`. -/
theorem c4_first_writer_wins_witness :
    processHosts "B" [(['h'], ['1'])] [] [['2', ' ', 'h']] =
      processHosts "B" [(['h'], ['1'])]
        ([] ++ [⟨"B", "A/AAAA", ['h'], ['2'], ['1']⟩]) [] :=
  (c4_first_writer_wins "B" [(['h'], ['1'])] [(['w'], ['x'])] [] []
    ['2', ' ', 'h'] ['2'] ['h'] ['1'] ['w'] ['y'] ['x'] []
    ⟨some ['w'], some ['y']⟩ (by decide) (by decide) (by decide)
    (by decide) (by decide) (by decide) (by decide)).1

/-- C5: merge idempotence. Feeding the very same source batch twice
(a simulated retried fetch) yields the same two canonical mappings as
feeding it once: every key of the second pass is already present with
the first pass's value, so only duplicate warnings are emitted and both
mappings are unchanged. -/
theorem c5_merge_idempotent (s : SourceRun) :
    (extract_records [s, s]).a_aaaa = (extract_records [s]).a_aaaa ∧
    (extract_records [s, s]).cname = (extract_records [s]).cname := by
  have h := processSource_maps_idem ⟨[], [], []⟩ s
  simpa [extract_records] using h

end PiholeDNS
